import Mathlib

/-!
# Verification of the `crdgo` CRD-to-Go-source generator

This file gives a shallow embedding, in Lean 4, of the core of the
`pkg/crdgo` package of zoumo/controller-tools:

* the import registry (`importsList.NeedImport` in `traverse.go`),
* the reflective value-to-source serializer (`generateValue`,
  `generateStructValue`, `generatePtrValue`, ... in `traverse.go`),
* the trivial-version collapse and the generation driver
  (`toTrivialVersions`, `Generator.Generate`, `codeWriter.GenerateCrds`
  in `gen.go`),

and proves (or refutes) the specified properties of those functions.

Go strings are modelled as `List Char` so that the character-level
operations of `NeedImport` (vendor stripping, `path.Split`, digit
stripping, identifier sanitisation) can be reasoned about directly.
-/

set_option autoImplicit false

namespace Crdgo

/-- Go strings, modelled as lists of characters. -/
abbrev Str := List Char

/-- Helper to write `Str` literals. -/
def str (s : String) : Str := s.toList

/-! ## Import registry (`importsList` in `traverse.go`)

The registry keeps two association maps, path→name and name→path.
Go maps are modelled as association lists where an insertion conses at
the front (so a later insertion for the same key shadows the earlier
one, exactly like a Go map assignment overwrites).
-/

/-- Lookup in an association-list model of a Go `map[string]string`. -/
def lookupA (m : List (Str × Str)) (k : Str) : Option Str :=
  match m with
  | [] => none
  | (k', v) :: rest => if k' = k then some v else lookupA rest k

/-- Insertion into the association-list model of a Go map: the new
binding shadows any earlier binding of the same key, like a Go map
assignment. -/
def insertA (m : List (Str × Str)) (k v : Str) : List (Str × Str) :=
  (k, v) :: m

/-- The two maps of `importsList` (`byPath`, `byAlias`). -/
structure ImportsList where
  byPath : List (Str × Str)
  byAlias : List (Str × Str)
  deriving DecidableEq, Repr

/-- The freshly initialised registry (`traverse.go` lines 16-19). -/
def emptyImports : ImportsList := ⟨[], []⟩

/-- The vendoring segment marker `"/vendor/"`. -/
def vendorPat : Str := str "/vendor/"

/-- Returns `some r` where `r` is the suffix of `l` that follows the
*last* occurrence of `"/vendor/"` in `l` (the occurrence itself
included in the dropped prefix), or `none` when the marker does not
occur.  This is `strings.LastIndex(importPath, "/vendor/")` followed by
`importPath[ind+8:]` in `NeedImport` (`traverse.go` lines 34-36): the
recursion prefers an occurrence further to the right. -/
def stripVendorAux : Str → Option Str
  | [] => none
  | c :: rest =>
    match stripVendorAux rest with
    | some r => some r
    | none =>
      if vendorPat.isPrefixOf (c :: rest) then some ((c :: rest).drop 8)
      else none

/-- The vendor normalisation step of `NeedImport`: strip everything up
to and including the last `"/vendor/"` marker; identity if absent. -/
def stripVendor (l : Str) : Str :=
  (stripVendorAux l).getD l

/-- Go's `path.Split`: split a path after the final slash, returning
`(dir, file)` where `dir` keeps its trailing slash; `("", p)` when
there is no slash. -/
def splitAux : Str → Option (Str × Str)
  | [] => none
  | c :: rest =>
    match splitAux rest with
    | some (d, f) => some (c :: d, f)
    | none => if c = '/' then some ([c], rest) else none

/-- Go's `path.Split` on the `List Char` model. -/
def goPathSplit (p : Str) : Str × Str :=
  (splitAux p).getD ([], p)

/-- The leading-digit stripping loop of `NeedImport` (`traverse.go`
lines 55-57).  The Go code uses `unicode.IsDigit`; import-path words
are ASCII, so `Char.isDigit` models it. -/
def digitStrip (w : Str) : Str := w.dropWhile Char.isDigit

/-- The character sanitisation of `NeedImport` (`traverse.go` lines
60-65): letters, digits and underscores survive, everything else
becomes an underscore.  `unicode.IsLetter`/`unicode.IsDigit` are
modelled with `Char.isAlpha`/`Char.isDigit` (import paths are ASCII). -/
def sanitize (w : Str) : Str :=
  w.map (fun r => if r.isAlpha || r.isDigit || r = '_' then r else '_')

/-- The candidate computed by one execution of the loop body of
`NeedImport` (`traverse.go` lines 48-67), from the current candidate
`al` and the Go locals `restPath`, `nextWord`. -/
def loopCandidate (al restPath nextWord : Str) : Str :=
  -- if restPath == "" { al += "x" }; then strip leading digits of
  -- nextWord, replace bad characters with underscores, and prepend:
  -- al = nextWord + al
  sanitize (digitStrip nextWord) ++ (if restPath = [] then al ++ str "x" else al)

/-- The segment-consuming update at the end of the loop body:
`if len(restPath) > 0 { restPath, nextWord = path.Split(restPath[:len(restPath)-1]) }`
(chopping off the final slash). -/
def loopAdvance (restPath nextWord : Str) : Str × Str :=
  if restPath.length > 0 then goPathSplit restPath.dropLast
  else (restPath, nextWord)

/-- The search `for` loop of `NeedImport` (`traverse.go` lines 47-71),
entered only when `importPath` is non-empty (for the empty path the Go
loop condition `exists && otherPath != importPath` is false at once).
`fuel` bounds the iteration count: the Go loop terminates because the
candidate strictly grows once path segments are exhausted, so a
sufficiently large fuel is supplied by the caller; `none` is returned
only on fuel exhaustion.

After each body execution the Go condition is re-evaluated with
`otherPath, exists := byAlias[candidate]`: the loop exits (returning
the candidate) when the candidate is unbound or already bound to this
very import path. -/
def aliasLoop (byAlias : List (Str × Str)) (importPath : Str) :
    Nat → Str → Str → Str → Option Str
  | 0, _, _, _ => none
  | fuel + 1, al, restPath, nextWord =>
    match lookupA byAlias (loopCandidate al restPath nextWord) with
    | none => some (loopCandidate al restPath nextWord)
    | some otherPath =>
      if otherPath = importPath then some (loopCandidate al restPath nextWord)
      else
        aliasLoop byAlias importPath fuel (loopCandidate al restPath nextWord)
          (loopAdvance restPath nextWord).1 (loopAdvance restPath nextWord).2

/-- A fuel amount sufficient for `aliasLoop` on realistic registries:
once `restPath` is empty (after at most `importPath.length` splits)
every iteration lengthens the candidate, so after more iterations than
the total length of all recorded entries the candidate can no longer
collide. -/
def aliasFuel (l : ImportsList) (importPath : Str) : Nat :=
  importPath.length + (l.byAlias.map (fun p => p.1.length)).sum + 2

/-- The body of `importsList.NeedImport` (`traverse.go` lines 38-75)
after the vendor normalisation.  Returns the assigned alias together
with the updated registry; `none` models the (unreachable) fuel
exhaustion of the search loop, in which case nothing is recorded.

Note the Go loop header `for otherPath, exists := "", true;
exists && otherPath != importPath; ...`: when `importPath` is the empty
string the condition is false at once, the body never runs, and the
zero-valued candidate (the empty string) is recorded unconditionally —
even when that empty alias is already bound to another path. -/
def needImportCore (l : ImportsList) (importPath : Str) : Option (Str × ImportsList) :=
  -- check to see if we've already assigned an alias, and just return that
  match lookupA l.byPath importPath with
  | some al => some (al, l)
  | none =>
    -- otherwise run the joining loop, starting from
    -- `restPath, nextWord := path.Split(importPath)` and the zero-valued
    -- candidate; for the empty path the loop is never entered
    match
      (if importPath = [] then some ([] : Str)
       else
         aliasLoop l.byAlias importPath (aliasFuel l importPath) []
           (goPathSplit importPath).1 (goPathSplit importPath).2) with
    | none => none
    | some al =>
      -- l.byPath[importPath] = alias; l.byAlias[alias] = importPath
      some (al, ⟨insertA l.byPath importPath al, insertA l.byAlias al importPath⟩)

/-- `importsList.NeedImport` (`traverse.go` lines 31-76): normalise
away any vendoring prefix, then look up / assign an alias. -/
def needImport (l : ImportsList) (importPath0 : Str) : Option (Str × ImportsList) :=
  needImportCore l (stripVendor importPath0)

/-- Submitting a whole sequence of import paths to one registry; a
(fuel-exhausted) failing call leaves the registry unchanged. -/
def runSeq (l : ImportsList) : List Str → ImportsList
  | [] => l
  | p :: ps =>
    match needImport l p with
    | some (_, l') => runSeq l' ps
    | none => runSeq l ps

/-! ### Vendor stripping is idempotent (towards C8) -/

theorem stripVendorAux_tail_none {c : Char} {l : Str}
    (h : stripVendorAux (c :: l) = none) : stripVendorAux l = none := by
  unfold stripVendorAux at h
  cases hs : stripVendorAux l with
  | none => rfl
  | some r => rw [hs] at h; exact Option.noConfusion h

theorem stripVendorAux_drop_none : ∀ (l : Str), stripVendorAux l = none →
    ∀ k, stripVendorAux (l.drop k) = none := by
  intro l
  induction l with
  | nil => intro h k; simpa using h
  | cons c rest ih =>
    intro h k
    cases k with
    | zero => exact h
    | succ n => simpa using ih (stripVendorAux_tail_none h) n

/-- The suffix following the last occurrence of the marker contains no
further occurrence. -/
theorem stripVendorAux_some_none : ∀ {l r : Str}, stripVendorAux l = some r →
    stripVendorAux r = none := by
  intro l
  induction l with
  | nil => intro r h; exact Option.noConfusion h
  | cons c rest ih =>
    intro r h
    unfold stripVendorAux at h
    cases hs : stripVendorAux rest with
    | some r' =>
      rw [hs] at h
      injection h with h
      exact h ▸ ih hs
    | none =>
      rw [hs] at h
      by_cases hpre : vendorPat.isPrefixOf (c :: rest)
      · rw [if_pos hpre] at h
        injection h with h
        subst h
        simpa using stripVendorAux_drop_none rest hs 7
      · rw [if_neg hpre] at h
        exact Option.noConfusion h

theorem stripVendor_idem (l : Str) : stripVendor (stripVendor l) = stripVendor l := by
  unfold stripVendor
  cases hs : stripVendorAux l with
  | none => simp [hs]
  | some r => simp [hs, stripVendorAux_some_none hs]

/-! ### Basic facts about the registry maps -/

theorem lookupA_insert_self (m : List (Str × Str)) (k v : Str) :
    lookupA (insertA m k v) k = some v := by
  simp [lookupA, insertA]

theorem lookupA_insert_ne (m : List (Str × Str)) (k v k' : Str) (h : k ≠ k') :
    lookupA (insertA m k v) k' = lookupA m k' := by
  simp [lookupA, insertA, h]

/-- When the search loop of `NeedImport` returns a candidate, that
candidate is either unbound in `byAlias` or bound to the very path
being registered (the loop condition at exit). -/
theorem aliasLoop_exit (byAlias : List (Str × Str)) (importPath : Str) :
    ∀ (fuel : Nat) (al restPath nextWord a : Str),
      aliasLoop byAlias importPath fuel al restPath nextWord = some a →
      lookupA byAlias a = none ∨ lookupA byAlias a = some importPath := by
  intro fuel
  induction fuel with
  | zero => intro al restPath nextWord a h; exact Option.noConfusion h
  | succ n ih =>
    intro al restPath nextWord a h
    unfold aliasLoop at h
    split at h
    next hl =>
      injection h with h
      exact Or.inl (h ▸ hl)
    next otherPath hl =>
      split at h
      next ho =>
        injection h with h
        exact Or.inr (h ▸ ho ▸ hl)
      next ho =>
        exact ih _ _ _ _ h

/-- A successful `NeedImport` records (or finds) its path in `byPath`. -/
theorem needImportCore_some_lookup {l : ImportsList} {ip a : Str} {l' : ImportsList}
    (h : needImportCore l ip = some (a, l')) :
    lookupA l'.byPath ip = some a := by
  unfold needImportCore at h
  cases hlp : lookupA l.byPath ip with
  | some b =>
    rw [hlp] at h
    simp only [Option.some.injEq, Prod.mk.injEq] at h
    obtain ⟨rfl, rfl⟩ := h
    exact hlp
  | none =>
    rw [hlp] at h
    by_cases hip : ip = []
    · rw [if_pos hip] at h
      simp only [Option.some.injEq, Prod.mk.injEq] at h
      obtain ⟨rfl, rfl⟩ := h
      exact lookupA_insert_self _ _ _
    · rw [if_neg hip] at h
      cases halo : aliasLoop l.byAlias ip (aliasFuel l ip) []
          (goPathSplit ip).1 (goPathSplit ip).2 with
      | none => rw [halo] at h; exact Option.noConfusion h
      | some al =>
        rw [halo] at h
        simp only [Option.some.injEq, Prod.mk.injEq] at h
        obtain ⟨rfl, rfl⟩ := h
        exact lookupA_insert_self _ _ _

/-- A hit in `byPath` short-circuits `NeedImport`: the recorded alias
is returned and the registry is left unchanged. -/
theorem needImport_of_lookup {l : ImportsList} {p a : Str}
    (h : lookupA l.byPath (stripVendor p) = some a) :
    needImport l p = some (a, l) := by
  unfold needImport needImportCore
  rw [h]

/-- `byPath` entries persist across later `NeedImport` calls (Go map
assignments for a key only happen when that key was absent). -/
theorem lookupA_persist {l : ImportsList} {q b : Str} {l2 : ImportsList}
    (h : needImport l q = some (b, l2)) {k a : Str}
    (hk : lookupA l.byPath k = some a) : lookupA l2.byPath k = some a := by
  unfold needImport needImportCore at h
  cases hlp : lookupA l.byPath (stripVendor q) with
  | some c =>
    rw [hlp] at h
    simp only [Option.some.injEq, Prod.mk.injEq] at h
    obtain ⟨rfl, rfl⟩ := h
    exact hk
  | none =>
    rw [hlp] at h
    have hne : stripVendor q ≠ k := fun he => by rw [he, hk] at hlp; exact Option.noConfusion hlp
    by_cases hip : stripVendor q = []
    · rw [if_pos hip] at h
      simp only [Option.some.injEq, Prod.mk.injEq] at h
      obtain ⟨rfl, rfl⟩ := h
      rw [lookupA_insert_ne _ _ _ _ hne]
      exact hk
    · rw [if_neg hip] at h
      cases halo : aliasLoop l.byAlias (stripVendor q) (aliasFuel l (stripVendor q)) []
          (goPathSplit (stripVendor q)).1 (goPathSplit (stripVendor q)).2 with
      | none => rw [halo] at h; exact Option.noConfusion h
      | some al =>
        rw [halo] at h
        simp only [Option.some.injEq, Prod.mk.injEq] at h
        obtain ⟨rfl, rfl⟩ := h
        rw [lookupA_insert_ne _ _ _ _ hne]
        exact hk

theorem lookupA_persist_seq : ∀ (qs : List Str) (l : ImportsList) (k a : Str),
    lookupA l.byPath k = some a → lookupA (runSeq l qs).byPath k = some a := by
  intro qs
  induction qs with
  | nil => intro l k a hk; exact hk
  | cons q rest ih =>
    intro l k a hk
    unfold runSeq
    cases hni : needImport l q with
    | none => exact ih l k a hk
    | some pr => exact ih pr.2 k a (lookupA_persist hni hk)

/-! ### The registry invariant: `byPath` and `byAlias` are mutually
inverse, which forces alias uniqueness. -/

/-- The two maps of the registry are inverse to one another. -/
def Inv (l : ImportsList) : Prop :=
  (∀ p a, lookupA l.byPath p = some a → lookupA l.byAlias a = some p) ∧
  (∀ a p, lookupA l.byAlias a = some p → lookupA l.byPath p = some a)

theorem inv_empty : Inv emptyImports := by
  constructor <;> intro x y h <;> exact Option.noConfusion h

/-- One `NeedImport` call preserves the invariant, provided the
normalised path is non-empty (the empty path bypasses the collision
check and may overwrite an existing `byAlias` binding). -/
theorem inv_preserve {l : ImportsList} {ip a : Str} {l' : ImportsList}
    (hinv : Inv l) (hip : ip ≠ [])
    (h : needImportCore l ip = some (a, l')) : Inv l' := by
  unfold needImportCore at h
  cases hlp : lookupA l.byPath ip with
  | some b =>
    rw [hlp] at h
    simp only [Option.some.injEq, Prod.mk.injEq] at h
    obtain ⟨rfl, rfl⟩ := h
    exact hinv
  | none =>
    rw [hlp] at h
    rw [if_neg hip] at h
    cases halo : aliasLoop l.byAlias ip (aliasFuel l ip) []
        (goPathSplit ip).1 (goPathSplit ip).2 with
    | none => rw [halo] at h; exact Option.noConfusion h
    | some al =>
      rw [halo] at h
      simp only [Option.some.injEq, Prod.mk.injEq] at h
      obtain ⟨rfl, rfl⟩ := h
      have hfree : lookupA l.byAlias al = none := by
        rcases aliasLoop_exit _ _ _ _ _ _ _ halo with hf | hsome
        · exact hf
        · rw [hinv.2 _ _ hsome] at hlp; exact Option.noConfusion hlp
      constructor
      · intro p' a' hp'
        by_cases hpe : ip = p'
        · subst hpe
          rw [lookupA_insert_self] at hp'
          injection hp' with hp'
          subst hp'
          exact lookupA_insert_self _ _ _
        · rw [lookupA_insert_ne _ _ _ _ hpe] at hp'
          have hba := hinv.1 _ _ hp'
          have hane : al ≠ a' := fun he => by rw [← he, hfree] at hba; exact Option.noConfusion hba
          rw [lookupA_insert_ne _ _ _ _ hane]
          exact hba
      · intro a' p' hp'
        by_cases hae : al = a'
        · subst hae
          rw [lookupA_insert_self] at hp'
          injection hp' with hp'
          subst hp'
          exact lookupA_insert_self _ _ _
        · rw [lookupA_insert_ne _ _ _ _ hae] at hp'
          have hbp := hinv.2 _ _ hp'
          have hpne : ip ≠ p' := fun he => by
            rw [← he, hlp] at hbp; exact Option.noConfusion hbp
          rw [lookupA_insert_ne _ _ _ _ hpne]
          exact hbp

theorem inv_runSeq : ∀ (ps : List Str) (l : ImportsList), Inv l →
    (∀ p ∈ ps, stripVendor p ≠ []) → Inv (runSeq l ps) := by
  intro ps
  induction ps with
  | nil => intro l hinv _; exact hinv
  | cons q qs ih =>
    intro l hinv hall
    unfold runSeq
    cases hni : needImport l q with
    | none => exact ih l hinv fun p hp => hall p (List.mem_cons_of_mem _ hp)
    | some pr =>
      refine ih pr.2 ?_ fun p hp => hall p (List.mem_cons_of_mem _ hp)
      have hq : stripVendor q ≠ [] := hall q (List.mem_cons_self _ _)
      have : needImportCore l (stripVendor q) = some (pr.1, pr.2) := hni
      exact inv_preserve hinv hq this

theorem inv_unique {l : ImportsList} (hinv : Inv l) {p1 p2 a : Str}
    (h1 : lookupA l.byPath p1 = some a) (h2 : lookupA l.byPath p2 = some a) :
    p1 = p2 := by
  have e1 := hinv.1 _ _ h1
  have e2 := hinv.1 _ _ h2
  rw [e1] at e2
  injection e2

/-! ### Claim theorems for the registry -/

/-- **C1 (amended).** For every sequence of namespace paths submitted
to one registry in which no path normalises (after vendor stripping)
to the empty string, no two distinct paths are ever assigned the same
alias; and — for all paths — a later `NeedImport` call with an
already-registered path returns exactly the alias previously assigned
to it and leaves the registry unchanged, no matter which other calls
happened in between. -/
theorem needImport_unique_and_idempotent :
    (∀ ps : List Str, (∀ p ∈ ps, stripVendor p ≠ []) →
      ∀ p1 p2 a, lookupA (runSeq emptyImports ps).byPath p1 = some a →
        lookupA (runSeq emptyImports ps).byPath p2 = some a → p1 = p2) ∧
    (∀ (l : ImportsList) (p a : Str) (l' : ImportsList) (qs : List Str),
      needImport l p = some (a, l') →
      needImport (runSeq l' qs) p = some (a, runSeq l' qs)) := by
  constructor
  · intro ps hps p1 p2 a h1 h2
    exact inv_unique (inv_runSeq ps emptyImports inv_empty hps) h1 h2
  · intro l p a l' qs h
    have hk : lookupA l'.byPath (stripVendor p) = some a :=
      needImportCore_some_lookup h
    exact needImport_of_lookup (lookupA_persist_seq qs l' _ _ hk)

/-- Witness for C1 (amended): the two colliding paths `"a/b"` and
`"c/b"` receive the distinct aliases `"b"` and `"cbx"`, and
re-submitting `"a/b"` after the second registration returns `"b"`
with the registry untouched. -/
theorem needImport_unique_and_idempotent_witness :
    ((∀ p ∈ [str "a/b", str "c/b"], stripVendor p ≠ []) ∧ str "a/b" = str "a/b") ∧
    (needImport emptyImports (str "a/b")
        = some (str "b", ⟨[(str "a/b", str "b")], [(str "b", str "a/b")]⟩) ∧
      needImport
          (runSeq ⟨[(str "a/b", str "b")], [(str "b", str "a/b")]⟩ [str "c/b"])
          (str "a/b")
        = some (str "b",
            runSeq ⟨[(str "a/b", str "b")], [(str "b", str "a/b")]⟩ [str "c/b"])) :=
  ⟨⟨by decide,
    needImport_unique_and_idempotent.1 [str "a/b", str "c/b"] (by decide)
      (str "a/b") (str "a/b") (str "b") (by decide) (by decide)⟩,
   by decide,
   needImport_unique_and_idempotent.2 emptyImports (str "a/b") (str "b")
     ⟨[(str "a/b", str "b")], [(str "b", str "a/b")]⟩ [str "c/b"] (by decide)⟩

/-- **C1 (counterexample).** The claim as stated is false: submitting
the path `"1/"` (whose final segment sanitises to nothing) assigns it
the empty alias, and then submitting the empty path bypasses the
collision loop entirely and records the empty alias again — two
distinct paths now hold the same alias.  (The empty path is reachable:
`generateType` calls `imports.Qual(t.PkgPath(), t.Name())` and
anonymous struct types have an empty `PkgPath`.) -/
theorem needImport_unique_cex :
    lookupA (runSeq emptyImports [str "1/", str ""]).byPath (str "1/")
        = some (str "") ∧
    lookupA (runSeq emptyImports [str "1/", str ""]).byPath (str "")
        = some (str "") ∧
    str "1/" ≠ str "" := by decide

/-- **C8.** A namespace path containing the vendoring marker
`"/vendor/"` is first normalised by stripping everything up to and
including the (last) marker, so submitting it is indistinguishable —
same alias, same registry afterwards — from submitting its canonical
post-marker form. -/
theorem needImport_vendor_normalized {l : ImportsList} {p : Str}
    (h : (stripVendorAux p).isSome = true) :
    needImport l p = needImport l (stripVendor p) := by
  unfold needImport
  rw [stripVendor_idem]

/-- Witness for C8 at the vendored path `"a/vendor/b/c"`, whose
canonical form is `"b/c"`. -/
theorem needImport_vendor_normalized_witness :
    (stripVendorAux (str "a/vendor/b/c")).isSome = true ∧
    needImport emptyImports (str "a/vendor/b/c")
      = needImport emptyImports (str "b/c") := by
  refine ⟨by decide, ?_⟩
  have h := needImport_vendor_normalized (l := emptyImports)
    (p := str "a/vendor/b/c") (by decide)
  have e : stripVendor (str "a/vendor/b/c") = str "b/c" := by decide
  rw [e] at h
  exact h

/-! ## The value-to-source serializer (`traverse.go` lines 87-344)

The serializer walks a `reflect.Value`.  We model the fragment of Go's
runtime values that the traversal dispatches on:

* `GoKind` — the scalar kinds accepted by `reflection.IsLiteralType` /
  `generateBuiltinLiteralValue` (bool, the integer widths, the float
  widths, string, uintptr);
* `GoType` — the type descriptor (`reflect.Type`): scalar kinds carry
  an optional (package path, name) pair, present exactly when the type
  is a named/custom scalar type (`reflection.IsCustomType`); struct
  types carry an optional name (absent for anonymous struct types,
  `reflection.IsAnonymousStruct`), their field list, and whether the
  type or a pointer to it implements `json.Marshaler` /
  `json.Unmarshaler`;
* `GoValue` — the runtime value.  Pointers carry an abstract address
  (never inspected by the serializer) and their pointee; modelled
  pointers are non-nil (`generatePtrValue` dereferences without a nil
  check, and nil pointer fields are zero-valued and omitted before the
  traversal reaches them).  Slices, maps, channels and funcs record
  nil-ness, which is what `reflect.Value.IsZero` tests for them.
  Struct values carry the text `json.Marshal` would produce for them,
  used by the opaque fallback which runs the marshal at generation
  time.  Interface-typed fields are outside the model (the traversal
  has no `reflect.Interface` case).

Emitted `jen.Statement` trees are modelled by the syntax `JExpr`; the
registry side effect of `imports.Qual(pkg, name)` (a `NeedImport`
call) touches only the global registry, whose aliases are never read
back into any emitted statement (`jen.Qual` resolves aliases itself at
render time), so the serializer is modelled as a pure function.
-/

inductive GoKind where
  | bool | int | int8 | int16 | int32 | int64
  | uint | uint8 | uint16 | uint32 | uint64
  | float32 | float64 | string | uintptr
  deriving DecidableEq, Repr

/-- `reflect.Kind.String()` restricted to the literal kinds. -/
def GoKind.kindName : GoKind → Str
  | .bool => str "bool"
  | .int => str "int"
  | .int8 => str "int8"
  | .int16 => str "int16"
  | .int32 => str "int32"
  | .int64 => str "int64"
  | .uint => str "uint"
  | .uint8 => str "uint8"
  | .uint16 => str "uint16"
  | .uint32 => str "uint32"
  | .uint64 => str "uint64"
  | .float32 => str "float32"
  | .float64 => str "float64"
  | .string => str "string"
  | .uintptr => str "uintptr"

/-- The defining (package path, local name) of a named type. -/
structure TypeName where
  pkgPath : Str
  name : Str
  deriving DecidableEq, Repr

/-- The payload of a scalar value, as passed to `jen.Lit` by
`generateBuiltinLiteralValue`.  Floats are carried as their IEEE bit
pattern: `reflect.Value.IsZero` compares float bits against zero, and
the model identifies values with their representation. -/
inductive GoLit where
  | vbool (b : Bool)
  | vint (i : Int)
  | vuint (n : Nat)
  | vfloat (bits : Nat)
  | vstr (s : Str)
  deriving DecidableEq, Repr

/-- Zero test for scalar payloads (`reflect.Value.IsZero`, scalar
cases). -/
def GoLit.isZero : GoLit → Bool
  | .vbool b => !b
  | .vint i => i = 0
  | .vuint n => n = 0
  | .vfloat bits => bits = 0
  | .vstr s => s.isEmpty

mutual
inductive GoType where
  | scalar (k : GoKind) (named : Option TypeName)
  | ptr (elem : GoType)
  | slice (elem : GoType)
  | array (len : Nat) (elem : GoType)
  | mapT (key val : GoType)
  | struct (name : Option TypeName) (implM implU : Bool) (fields : FieldList)
  | chan (elem : GoType)
  | func
inductive FieldList where
  | nil
  | fcons (fname : Str) (exported : Bool) (fty : GoType) (rest : FieldList)
end

mutual
inductive GoValue where
  | scalar (k : GoKind) (named : Option TypeName) (lit : GoLit)
  | ptr (addr : Nat) (elem : GoValue)
  | slice (elemTy : GoType) (isNil : Bool) (elems : GoValueList)
  | array (len : Nat) (elemTy : GoType) (elems : GoValueList)
  | mapV (keyTy valTy : GoType) (isNil : Bool) (entries : GoPairList)
  | structV (name : Option TypeName) (implM implU : Bool)
      (fields : FieldValueList) (jsonText : Str)
  | chanV (elemTy : GoType) (isNil : Bool)
  | funcV (isNil : Bool)
inductive GoValueList where
  | nil
  | cons (v : GoValue) (rest : GoValueList)
inductive GoPairList where
  | nil
  | cons (key val : GoValue) (rest : GoPairList)
inductive FieldValueList where
  | nil
  | cons (fname : Str) (exported : Bool) (v : GoValue) (rest : FieldValueList)
end

mutual
/-- The `reflect.Type` of a modelled value. -/
def GoValue.typeOf : GoValue → GoType
  | .scalar k named _ => .scalar k named
  | .ptr _ e => .ptr e.typeOf
  | .slice ty _ _ => .slice ty
  | .array n ty _ => .array n ty
  | .mapV kt vt _ _ => .mapT kt vt
  | .structV name m u fs _ => .struct name m u (fieldTypes fs)
  | .chanV ty _ => .chan ty
  | .funcV _ => .func
def fieldTypes : FieldValueList → FieldList
  | .nil => .nil
  | .cons n ex v rest => .fcons n ex v.typeOf (fieldTypes rest)
end

mutual
/-- `reflect.Value.IsZero`: scalars by payload, pointers/slices/maps/
channels/funcs by nil-ness, arrays and structs recursively. -/
def GoValue.isZero : GoValue → Bool
  | .scalar _ _ lit => lit.isZero
  | .ptr _ _ => false
  | .slice _ isNil _ => isNil
  | .array _ _ es => allZero es
  | .mapV _ _ isNil _ => isNil
  | .structV _ _ _ fs _ => allFieldsZero fs
  | .chanV _ isNil => isNil
  | .funcV isNil => isNil
def allZero : GoValueList → Bool
  | .nil => true
  | .cons v rest => v.isZero && allZero rest
def allFieldsZero : FieldValueList → Bool
  | .nil => true
  | .cons _ _ v rest => v.isZero && allFieldsZero rest
end

/-- `reflection.IsLiteralType`: the scalar kinds. -/
def isLiteralType : GoType → Bool
  | .scalar _ _ => true
  | _ => false

/-- `reflection.IsCustomType`: a named (non-builtin) scalar type. -/
def isCustomType : GoType → Bool
  | .scalar _ (some _) => true
  | _ => false

/-- `reflection.IsAnonymousStruct` on a type: a struct type with no
name. -/
def isAnonymousStructTy : GoType → Bool
  | .struct none _ _ _ => true
  | _ => false

/-- `reflection.IsUnexportedField` over our field representation. -/
def isUnexportedField (exported : Bool) : Bool := !exported

/-- `reflection.HasUnexportedField`: some directly declared field of
the struct is unexported. -/
def hasUnexportedFieldV : FieldValueList → Bool
  | .nil => false
  | .cons _ ex _ rest => !ex || hasUnexportedFieldV rest

/-- The syntax of emitted `jen` statements, as built by `traverse.go`.
`Option JExpr` components model `jen` sub-statements that can be the
nil returned by a serializer call (`Add(nil)` / absent type prefix when
`omitType` replaces the type with the empty statement). -/
inductive JExpr where
  | lit (k : GoKind) (l : GoLit)
  | id (x : Str)
  | qual (pkg name : Str)
  | conv (ty arg : JExpr)
  | call (f : JExpr) (args : List JExpr)
  | parens (e : JExpr)
  | addrOf (e : JExpr)
  | star (e : JExpr)
  | sliceType (elem : JExpr)
  | arrayType (n : Nat) (elem : JExpr)
  | mapType (key val : JExpr)
  | chanType (elem : JExpr)
  | structTypeE (fields : List (Str × Option JExpr))
  | listLit (ty : Option JExpr) (elems : List (Option JExpr))
  | mapLit (ty : Option JExpr) (entries : List (Option JExpr × Option JExpr))
  | structLit (ty : Option JExpr) (fields : List (Str × Option JExpr))
  | selfInvoke (ptrResult : Bool) (ty : JExpr) (jsonText : Str)

/-- `Capitalize` (`traverse.go` lines 335-344): subtract 32 from the
first rune when it lies in `a`..`z` (codes 97..122). -/
def capitalize : Str → Str
  | [] => []
  | c :: rest =>
    if 97 ≤ c.toNat && c.toNat ≤ 122 then Char.ofNat (c.toNat - 32) :: rest
    else c :: rest

/-- `imports.Qual(t.PkgPath(), t.Name())` for a (possibly anonymous)
struct type; the anonymous case passes two empty strings. -/
def structQual : Option TypeName → JExpr
  | some tn => .qual tn.pkgPath tn.name
  | none => .qual [] []

/-- `generateType` (`traverse.go` lines 153-176).  Returns `none`
exactly where the Go function returns nil (func kinds); a `none` from
a recursive call propagates (the Go code would `Add` a nil into the
statement, which never renders for CRD-shaped data). -/
def generateType : GoType → Option JExpr
  | .ptr e => (generateType e).map .star
  | .slice e => (generateType e).map .sliceType
  | .array n e => (generateType e).map (.arrayType n)
  | .mapT k v =>
    match generateType k, generateType v with
    | some jk, some jv => some (.mapType jk jv)
    | _, _ => none
  | .struct name _ _ _ => some (structQual name)
  | .chan e => (generateType e).map .chanType
  | .func => none
  | .scalar k named =>
    match named with
    | some tn => some (.qual tn.pkgPath tn.name)   -- IsCustomType branch
    | none => some (.id k.kindName)                -- jen.Id(t.Kind().String())

/-- `generateBuiltinLiteralValue` (`traverse.go` lines 206-246): the
scalar payload is handed to `jen.Lit` at its kind's width. -/
def generateBuiltinLiteralValue (k : GoKind) (l : GoLit) : JExpr := .lit k l

/-- `generateLiteralValue` (`traverse.go` lines 193-204): the builtin
literal, wrapped in a conversion to the named type when the scalar's
declared type is custom. -/
def generateLiteralValue : GoValue → Option JExpr
  | .scalar k named l =>
    match named with
    | some tn => some (.conv (.qual tn.pkgPath tn.name) (generateBuiltinLiteralValue k l))
    | none => some (generateBuiltinLiteralValue k l)
  | _ => none

/-- `generatePtrLiteralValue` (`traverse.go` lines 178-191): a call to
the pointer-helper package's function named after the capitalised
kind, wrapping the builtin literal; for a custom scalar type the call
is further wrapped in a `(*T)(...)` conversion. -/
def generatePtrLiteralValue : GoValue → Option JExpr
  | .scalar k named l =>
    let p := JExpr.call
      (.qual (str "github.com/zoumo/golib/pointer") (capitalize k.kindName))
      [generateBuiltinLiteralValue k l]
    match named with
    | some tn => some (.conv (.parens (.star (.qual tn.pkgPath tn.name))) p)
    | none => some p
  | _ => none

/-- `generateStructWithUnexportedField` (`traverse.go` lines 297-333):
when the struct type (or a pointer to it) implements both
`json.Marshaler` and `json.Unmarshaler`, emit the self-invoking
function expression

`func() T? { jsonStr := "<marshal output>"; var obj T;
json.Unmarshal([]byte(jsonStr), &obj); return obj? }()`

(returning `*T` / `&obj` when `ptrResult`); `jsonText` is the result
of running `json.Marshal(v.Interface())` at generation time (its error
is discarded by the Go code).  Returns `none` when the interfaces are
not implemented. -/
def generateStructWithUnexportedField (v : GoValue) (ptrResult : Bool) : Option JExpr :=
  match v with
  | .structV name implM implU _ jsonText =>
    if implM && implU then some (.selfInvoke ptrResult (structQual name) jsonText)
    else none
  | _ => none

/-- The inline struct-type rendering of `generateStructValue`
(`traverse.go` lines 261-267): every declared field (exported or not)
with its rendered type. -/
def fieldTypeList : FieldList → List (Str × Option JExpr)
  | .nil => []
  | .fcons n _ ty rest => (n, generateType ty) :: fieldTypeList rest

/-- The `ts` computed by `generateStructValue` before the `ptrResult`
and `omitType` adjustments: an inline struct type for anonymous struct
types, a qualified reference otherwise. -/
def structTyExpr (name : Option TypeName) (fields : FieldValueList) : JExpr :=
  if name.isNone then .structTypeE (fieldTypeList (fieldTypes fields))
  else structQual name

mutual

/-- `generateValue` (`traverse.go` lines 91-132).  The first Go test,
`reflection.IsLiteralType(t)`, holds exactly for scalar values; then
the kind switch.  Chan and func kinds fall through to `return nil`. -/
def generateValue : GoValue → Bool → Option JExpr
  | .scalar k named l, _ => generateLiteralValue (.scalar k named l)
  | .ptr addr e, omitType => generatePtrValue (.ptr addr e) omitType
  | .slice ty _isNil es, omitType =>
    some (.listLit (if omitType then none else generateType (GoType.slice ty))
      (generateElems es))
  | .array n ty es, omitType =>
    some (.listLit (if omitType then none else generateType (GoType.array n ty))
      (generateElems es))
  | .mapV kt vt _isNil ps, omitType =>
    some (.mapLit (if omitType then none else generateType (GoType.mapT kt vt))
      (generatePairs ps))
  | .structV name m u fs jt, omitType =>
    generateStructValue (.structV name m u fs jt) false omitType
  | .chanV _ _, _ => none
  | .funcV _, _ => none
termination_by v _ => sizeOf v * 4 + 3

/-- Slice/array elements: `generateValue(v.Index(i), true)` in index
order (`traverse.go` lines 107-114; the `Line()` calls are layout
only). -/
def generateElems : GoValueList → List (Option JExpr)
  | .nil => []
  | .cons v rest => generateValue v true :: generateElems rest
termination_by es => sizeOf es * 4

/-- Map entries: `d[generateValue(kv, false)] = generateValue(vv, true)`
in iteration order (`traverse.go` lines 116-124); `jen.Dict` sorts the
rendered keys at render time, so the entry multiset is what matters. -/
def generatePairs : GoPairList → List (Option JExpr × Option JExpr)
  | .nil => []
  | .cons k v rest => (generateValue k false, generateValue v true) :: generatePairs rest
termination_by ps => sizeOf ps * 4

/-- `generatePtrValue` (`traverse.go` lines 134-151): literal pointee →
pointer-helper call; struct pointee → struct serialization with
`ptrResult`; otherwise `&` + recursive serialization.  (The Go
`if omitType { generateValue(v.Elem(), true) }` discards its result
and, in this pure model, has no effect.) -/
def generatePtrValue : GoValue → Bool → Option JExpr
  | .ptr _ e, omitType =>
    match e with
    | .scalar k named l => generatePtrLiteralValue (.scalar k named l)
    | .structV name m u fs jt =>
      generateStructValue (.structV name m u fs jt) true omitType
    | .ptr a2 e2 => (generateValue (.ptr a2 e2) false).map .addrOf
    | .slice ty n es => (generateValue (.slice ty n es) false).map .addrOf
    | .array ln ty es => (generateValue (.array ln ty es) false).map .addrOf
    | .mapV kt vt n ps => (generateValue (.mapV kt vt n ps) false).map .addrOf
    | .chanV ty n => (generateValue (.chanV ty n) false).map .addrOf
    | .funcV n => (generateValue (.funcV n) false).map .addrOf
  | _, _ => none
termination_by v _ => sizeOf v * 4 + 2

/-- `generateStructValue` (`traverse.go` lines 248-295). -/
def generateStructValue : GoValue → Bool → Bool → Option JExpr
  | .structV name implM implU fields jsonText, ptrResult, omitType =>
    match (if hasUnexportedFieldV fields then
             generateStructWithUnexportedField
               (.structV name implM implU fields jsonText) ptrResult
           else none) with
    | some j => some j
    | none =>
      some (.structLit
        (if omitType then none
         else if ptrResult then some (.addrOf (structTyExpr name fields))
         else some (structTyExpr name fields))
        (structDict fields))
  | _, _, _ => none
termination_by v _ _ => sizeOf v * 4 + 1

/-- The field dictionary of the emitted struct literal (`traverse.go`
lines 280-294): skip unexported fields and fields of anonymous-struct
type, omit zero values, otherwise `d[jen.Id(name)] =
generateValue(field, false)`. -/
def structDict : FieldValueList → List (Str × Option JExpr)
  | .nil => []
  | .cons n ex fv rest =>
    if isUnexportedField ex || isAnonymousStructTy fv.typeOf then structDict rest
    else if fv.isZero then structDict rest
    else (n, generateValue fv false) :: structDict rest
termination_by fs => sizeOf fs * 4

end

/-- `GenerateValue` (`traverse.go` lines 87-89). -/
def GenerateValue (v : GoValue) : Option JExpr := generateValue v false

/-! ### The emitted field dictionary of a struct literal -/

/-- The declared fields as a plain list of (name, exported, value). -/
def fieldsToList : FieldValueList → List (Str × Bool × GoValue)
  | .nil => []
  | .cons n ex v rest => (n, ex, v) :: fieldsToList rest

/-- `structDict` re-expressed over the plain list of fields, for
list-based reasoning. -/
def dictOfFields : List (Str × Bool × GoValue) → List (Str × Option JExpr)
  | [] => []
  | (n, ex, fv) :: rest =>
    if isUnexportedField ex || isAnonymousStructTy fv.typeOf then dictOfFields rest
    else if fv.isZero then dictOfFields rest
    else (n, generateValue fv false) :: dictOfFields rest

theorem structDict_eq (fs : FieldValueList) :
    structDict fs = dictOfFields (fieldsToList fs) := by
  match fs with
  | .nil => rw [structDict, fieldsToList]; rfl
  | .cons n ex v rest =>
    rw [structDict, fieldsToList, structDict_eq rest]
    rfl
termination_by sizeOf fs

/-- Every key of the emitted dictionary is a declared field name. -/
theorem dictOfFields_key_mem : ∀ (l : List (Str × Bool × GoValue)) (n : Str),
    n ∈ (dictOfFields l).map Prod.fst → n ∈ l.map (fun f => f.1) := by
  intro l
  induction l with
  | nil => intro n h; simp [dictOfFields] at h
  | cons f rest ih =>
    obtain ⟨n0, ex0, v0⟩ := f
    intro n h
    by_cases h1 : (isUnexportedField ex0 || isAnonymousStructTy v0.typeOf) = true
    · rw [dictOfFields, if_pos h1] at h
      exact List.mem_cons_of_mem _ (ih n h)
    · rw [dictOfFields, if_neg h1] at h
      by_cases h2 : v0.isZero = true
      · rw [if_pos h2] at h
        exact List.mem_cons_of_mem _ (ih n h)
      · rw [if_neg h2] at h
        rw [List.map_cons, List.mem_cons] at h
        rcases h with h | h
        · rw [List.map_cons, List.mem_cons]
          exact Or.inl h
        · exact List.mem_cons_of_mem _ (ih n h)

/-- Characterisation of the emitted dictionary, for structs with
pairwise distinct field names (as Go guarantees): a field's name
appears exactly once when the field is exported, non-zero and not of
anonymous-struct type — paired with its recursive serialization — and
not at all otherwise. -/
theorem dictOfFields_count : ∀ (l : List (Str × Bool × GoValue)),
    (l.map (fun f => f.1)).Nodup →
    ∀ n ex v, (n, ex, v) ∈ l →
      (((dictOfFields l).map Prod.fst).count n
          = if ex && !v.isZero && !isAnonymousStructTy v.typeOf then 1 else 0) ∧
      (ex = true → v.isZero = false → isAnonymousStructTy v.typeOf = false →
        (n, generateValue v false) ∈ dictOfFields l) := by
  intro l
  induction l with
  | nil => intro _ n ex v h; simp at h
  | cons f rest ih =>
    obtain ⟨n0, ex0, v0⟩ := f
    intro hnd n ex v hmem
    rw [List.map_cons, List.nodup_cons] at hnd
    obtain ⟨hn0, hndr⟩ := hnd
    rw [List.mem_cons] at hmem
    rcases hmem with hmem | hmem
    · -- the head field is the one under scrutiny
      simp only [Prod.mk.injEq] at hmem
      obtain ⟨rfl, rfl, rfl⟩ := hmem
      have hz : ((dictOfFields rest).map Prod.fst).count n = 0 := by
        rw [List.count_eq_zero]
        exact fun hc => hn0 (dictOfFields_key_mem rest n hc)
      cases hex : ex <;> cases han : isAnonymousStructTy v.typeOf <;>
        cases hzv : v.isZero <;>
        simp [dictOfFields, isUnexportedField, hex, han, hzv, hz, List.count_cons]
    · -- the field under scrutiny lies in the tail
      have hmemn : n ∈ rest.map (fun f => f.1) :=
        List.mem_map_of_mem (fun f => f.1) hmem
      have hne : n ≠ n0 := fun he => hn0 (he ▸ hmemn)
      have IH := ih hndr n ex v hmem
      by_cases h1 : (isUnexportedField ex0 || isAnonymousStructTy v0.typeOf) = true
      · rw [dictOfFields, if_pos h1]
        exact IH
      · rw [dictOfFields, if_neg h1]
        by_cases h2 : v0.isZero = true
        · rw [if_pos h2]
          exact IH
        · rw [if_neg h2]
          constructor
          · have hne2 : ¬(n0 = n) := fun he => hne he.symm
            rw [List.map_cons, List.count_cons]
            simp only [beq_iff_eq, hne2, if_false]
            exact IH.1
          · intro hx hz ha
            exact List.mem_cons_of_mem _ (IH.2 hx hz ha)

/-- `structDict` version of the characterisation. -/
theorem structDict_count (fs : FieldValueList)
    (hnd : ((fieldsToList fs).map (fun f => f.1)).Nodup)
    (n : Str) (ex : Bool) (v : GoValue) (hmem : (n, ex, v) ∈ fieldsToList fs) :
    (((structDict fs).map Prod.fst).count n
        = if ex && !v.isZero && !isAnonymousStructTy v.typeOf then 1 else 0) ∧
    (ex = true → v.isZero = false → isAnonymousStructTy v.typeOf = false →
      (n, generateValue v false) ∈ structDict fs) := by
  rw [structDict_eq]
  exact dictOfFields_count (fieldsToList fs) hnd n ex v hmem

/-! ### Claim theorems for the serializer -/

/-- **C2.**  On the normal (non-fallback) serialization path, a struct
value's emitted literal omits every zero-valued field entirely, and
contains exactly one entry for every exported, non-zero field whose
type is not an anonymous struct, carrying that field's recursive
serialization.  (The fallback path is excluded by the hypothesis that
the struct either has no unexported field or lacks one of the two json
interfaces; field names are pairwise distinct, as Go guarantees.) -/
theorem struct_normal_zero_omission
    (name : Option TypeName) (implM implU : Bool) (fields : FieldValueList)
    (jsonText : Str) (pr ot : Bool)
    (hnf : hasUnexportedFieldV fields = false ∨ implM = false ∨ implU = false)
    (hnd : ((fieldsToList fields).map (fun f => f.1)).Nodup) :
    ∃ ty, generateStructValue (.structV name implM implU fields jsonText) pr ot
        = some (.structLit ty (structDict fields)) ∧
      ∀ n ex v, (n, ex, v) ∈ fieldsToList fields →
        (v.isZero = true → ((structDict fields).map Prod.fst).count n = 0) ∧
        (ex = true → v.isZero = false → isAnonymousStructTy v.typeOf = false →
          ((structDict fields).map Prod.fst).count n = 1 ∧
          (n, generateValue v false) ∈ structDict fields) := by
  have hfb : (if hasUnexportedFieldV fields then
      generateStructWithUnexportedField
        (.structV name implM implU fields jsonText) pr
    else none) = none := by
    rcases hnf with h | h | h
    · rw [h]; rfl
    · cases hu : hasUnexportedFieldV fields
      · rfl
      · simp [generateStructWithUnexportedField, h]
    · cases hu : hasUnexportedFieldV fields
      · rfl
      · simp [generateStructWithUnexportedField, h]
  refine ⟨(if ot then none
            else if pr then some (.addrOf (structTyExpr name fields))
            else some (structTyExpr name fields)), ?_, ?_⟩
  · rw [generateStructValue, hfb]
  · intro n ex v hmem
    have h := structDict_count fields hnd n ex v hmem
    constructor
    · intro hz
      rw [h.1, hz]
      simp
    · intro hx hz ha
      refine ⟨?_, h.2 hx hz ha⟩
      rw [h.1, hx, hz, ha]
      rfl

/-- The fields of the C2 witness struct: a zero `int` field `A`, a
non-zero string field `B`, an unexported non-zero field `c`. -/
def c2Fields : FieldValueList :=
  .cons (str "A") true (.scalar .int none (.vint 0))
  (.cons (str "B") true (.scalar .string none (.vstr (str "hi")))
  (.cons (str "c") false (.scalar .int none (.vint 7)) .nil))

/-- Witness for C2: field `A` is omitted, field `B` is present exactly
once with its literal, and `c` is omitted; no fallback since the type
implements no json interface. -/
theorem struct_normal_zero_omission_witness :
    ((false : Bool) = false ∨ (false : Bool) = false ∨ (false : Bool) = false) ∧
    ((fieldsToList c2Fields).map (fun f => f.1)).Nodup ∧
    ((structDict c2Fields).map Prod.fst).count (str "A") = 0 ∧
    ((structDict c2Fields).map Prod.fst).count (str "B") = 1 ∧
    (str "B", generateValue (.scalar .string none (.vstr (str "hi"))) false)
      ∈ structDict c2Fields := by
  obtain ⟨ty, _, hch⟩ := struct_normal_zero_omission none false false c2Fields []
    false false (Or.inr (Or.inl rfl)) (by decide)
  have hB := (hch (str "B") true (.scalar .string none (.vstr (str "hi")))
    (by simp [c2Fields, fieldsToList])).2 rfl rfl rfl
  exact ⟨Or.inr (Or.inl rfl), by decide,
    (hch (str "A") true (.scalar .int none (.vint 0))
      (by simp [c2Fields, fieldsToList])).1 rfl,
    hB.1, hB.2⟩

/-- **C3.**  For a struct value whose type has an unexported field,
when the struct type (or a pointer to it) implements both
`json.Marshaler` and `json.Unmarshaler`, the serializer does not
recurse field-by-field: it emits the self-invoking function expression
embedding the generation-time `json.Marshal` output as a string
literal, decoding it into a fresh value of the struct type and
returning it by value or by pointer according to the caller's need —
`generateValue` (value context) always requests a value result, and
`generatePtrValue` (pointer context) always requests a pointer
result. -/
theorem struct_fallback_selfinvoke
    (name : Option TypeName) (fields : FieldValueList) (jsonText : Str)
    (pr ot : Bool) (addr : Nat)
    (hu : hasUnexportedFieldV fields = true) :
    generateStructValue (.structV name true true fields jsonText) pr ot
        = some (.selfInvoke pr (structQual name) jsonText) ∧
    generateValue (.structV name true true fields jsonText) ot
        = some (.selfInvoke false (structQual name) jsonText) ∧
    generateValue (.ptr addr (.structV name true true fields jsonText)) ot
        = some (.selfInvoke true (structQual name) jsonText) := by
  refine ⟨?_, ?_, ?_⟩ <;>
    simp [generateValue, generatePtrValue, generateStructValue,
      generateStructWithUnexportedField, hu]

/-- Witness for C3: a named one-unexported-field struct type with both
interfaces, serialized behind a pointer and by value. -/
theorem struct_fallback_selfinvoke_witness :
    hasUnexportedFieldV
        (.cons (str "x") false (.scalar .int none (.vint 1)) .nil) = true ∧
    generateValue
        (.structV (some ⟨str "k8s.io/apimachinery/pkg/apis/meta/v1", str "Time"⟩)
          true true (.cons (str "x") false (.scalar .int none (.vint 1)) .nil)
          (str "\"2020-01-01T00:00:00Z\""))
        false
      = some (.selfInvoke false
          (.qual (str "k8s.io/apimachinery/pkg/apis/meta/v1") (str "Time"))
          (str "\"2020-01-01T00:00:00Z\"")) :=
  ⟨rfl,
   (struct_fallback_selfinvoke
      (some ⟨str "k8s.io/apimachinery/pkg/apis/meta/v1", str "Time"⟩)
      (.cons (str "x") false (.scalar .int none (.vint 1)) .nil)
      (str "\"2020-01-01T00:00:00Z\"") false false 0 rfl).2.1⟩

/-- **C6 (counterexample).**  A field whose type is an anonymous
struct is *not* rendered inline: `generateStructValue` skips such
fields entirely (`traverse.go` line 285), so a struct whose only field
has an anonymous struct type — here with a non-zero value — serializes
to a literal with an *empty* field list; the field's value is absent
from the output. -/
theorem anon_struct_field_cex :
    generateValue
        (.structV (some ⟨str "p", str "Outer"⟩) false false
          (.cons (str "F") true
            (.structV none false false
              (.cons (str "X") true (.scalar .int none (.vint 1)) .nil) [])
            .nil)
          [])
        false
      = some (.structLit (some (.qual (str "p") (str "Outer"))) []) ∧
    GoValue.isZero
        (.structV none false false
          (.cons (str "X") true (.scalar .int none (.vint 1)) .nil) [])
      = false := by
  constructor
  · simp [generateValue, generateStructValue, generateStructWithUnexportedField,
      hasUnexportedFieldV, structDict, isUnexportedField, isAnonymousStructTy,
      GoValue.typeOf, structTyExpr, structQual]
  · simp [GoValue.isZero, allFieldsZero, GoLit.isZero]

/-- **C6 (amended).**  A struct field whose type is an anonymous
struct is omitted from the containing struct's emitted literal
entirely; it is a value *of* anonymous struct type, when serialized in
its own right (top level, slice/map element, or pointee), whose type
renders as an inline struct type-and-literal rather than a
namespace-qualified reference. -/
theorem anon_struct_inline
    (implM implU : Bool) (fields : FieldValueList) (jsonText : Str)
    (hnf : hasUnexportedFieldV fields = false ∨ implM = false ∨ implU = false)
    (hnd : ((fieldsToList fields).map (fun f => f.1)).Nodup) :
    (∀ n ex v, (n, ex, v) ∈ fieldsToList fields →
      isAnonymousStructTy v.typeOf = true →
      ((structDict fields).map Prod.fst).count n = 0) ∧
    generateValue (.structV none implM implU fields jsonText) false
      = some (.structLit
          (some (.structTypeE (fieldTypeList (fieldTypes fields))))
          (structDict fields)) := by
  have hfb : (∀ pr, (if hasUnexportedFieldV fields then
      generateStructWithUnexportedField
        (.structV none implM implU fields jsonText) pr
    else none) = none) := by
    intro pr
    rcases hnf with h | h | h
    · rw [h]; rfl
    · cases hu : hasUnexportedFieldV fields
      · rfl
      · simp [generateStructWithUnexportedField, h]
    · cases hu : hasUnexportedFieldV fields
      · rfl
      · simp [generateStructWithUnexportedField, h]
  constructor
  · intro n ex v hmem han
    rw [(structDict_count fields hnd n ex v hmem).1, han]
    simp
  · rw [generateValue, generateStructValue, hfb false]
    rfl

/-- Witness for C6 (amended): the anonymous struct value of the
counterexample, serialized directly, renders with the inline type
`struct{ X int }`. -/
theorem anon_struct_inline_witness :
    ((false : Bool) = false ∨ (false : Bool) = false ∨ (false : Bool) = false) ∧
    generateValue
        (.structV none false false
          (.cons (str "X") true (.scalar .int none (.vint 1)) .nil) [])
        false
      = some (.structLit
          (some (.structTypeE [(str "X", some (.id (str "int")))]))
          [(str "X", some (.lit .int (.vint 1)))]) := by
  have h := (anon_struct_inline false false
    (.cons (str "X") true (.scalar .int none (.vint 1)) .nil) []
    (Or.inl rfl) (by decide)).2
  refine ⟨Or.inl rfl, ?_⟩
  rw [h]
  simp [fieldTypes, fieldTypeList, generateType, GoValue.typeOf, GoKind.kindName,
    structDict, isUnexportedField, isAnonymousStructTy, GoValue.isZero,
    GoLit.isZero, generateValue, generateLiteralValue, generateBuiltinLiteralValue]

/-- **C9.**  A pointer to a scalar serializes to a call of the
pointer-helper package's constructor named after the capitalised
scalar kind, wrapping the pointee's primitive literal — additionally
wrapped in a `(*T)(...)` conversion when the pointee's declared type
is a named scalar type — and the result depends only on the pointee:
the pointer's identity (its address) never appears in the output. -/
theorem ptr_scalar_helper (addr : Nat) (k : GoKind) (named : Option TypeName)
    (l : GoLit) (ot : Bool) :
    generateValue (.ptr addr (.scalar k named l)) ot
        = some (match named with
            | some tn => .conv (.parens (.star (.qual tn.pkgPath tn.name)))
                (.call (.qual (str "github.com/zoumo/golib/pointer")
                  (capitalize k.kindName)) [.lit k l])
            | none => .call (.qual (str "github.com/zoumo/golib/pointer")
                (capitalize k.kindName)) [.lit k l]) ∧
    ∀ addr2 : Nat, generateValue (.ptr addr2 (.scalar k named l)) ot
        = generateValue (.ptr addr (.scalar k named l)) ot := by
  constructor
  · cases named <;>
      simp [generateValue, generatePtrValue, generatePtrLiteralValue,
        generateBuiltinLiteralValue]
  · intro addr2
    simp [generateValue, generatePtrValue]

/-! ## The generation driver (`gen.go`)

`toTrivialVersions` operates on the legacy (`v1beta1`)
`CustomResourceDefinition` shape.  The schema / subresources / column
payloads come from the external `apiextensions` package and are never
inspected — only tested against nil and moved — so they are modelled
by opaque stand-ins (`Nat` payload ids, a `List Nat` for the column
slice whose nil/empty distinction the function never examines).
-/

/-- Opaque stand-in for `*apiextlegacy.CustomResourceValidation`. -/
abbrev Validation := Nat

/-- Opaque stand-in for `*apiextlegacy.CustomResourceSubresources`. -/
abbrev Subresources := Nat

/-- Opaque stand-in for `[]apiextlegacy.CustomResourceColumnDefinition`. -/
abbrev ColumnDefs := List Nat

/-- `apiextlegacy.CustomResourceDefinitionVersion`. -/
structure CRDVersionL where
  vname : Str
  served : Bool
  storage : Bool
  schema : Option Validation
  subresources : Option Subresources
  additionalPrinterColumns : ColumnDefs
  deriving DecidableEq, Repr

/-- The fields of `apiextlegacy.CustomResourceDefinitionSpec` that
`toTrivialVersions` touches. -/
structure CRDSpecL where
  versions : List CRDVersionL
  validation : Option Validation
  subresources : Option Subresources
  additionalPrinterColumns : ColumnDefs
  deriving DecidableEq, Repr

/-- `apiextlegacy.CustomResourceDefinition` (spec part). -/
structure CRDL where
  spec : CRDSpecL
  deriving DecidableEq, Repr

/-- The per-version clearing of `toTrivialVersions` (gen.go lines
300-302): `Versions[i].Schema = nil`, `.Subresources = nil`,
`.AdditionalPrinterColumns = nil`. -/
def clearVersion (v : CRDVersionL) : CRDVersionL :=
  { v with schema := none, subresources := none, additionalPrinterColumns := [] }

/-- The capture running through the loop of `toTrivialVersions`
(gen.go lines 294-299): each version marked as storage overwrites all
three canonical fields (the loop variable `ver` is a copy, so the
capture sees the original fields even though the slice entry is
cleared in the same iteration). -/
def canonOf (vs : List CRDVersionL) :
    Option Validation × Option Subresources × ColumnDefs :=
  vs.foldl
    (fun acc ver =>
      if ver.storage then (ver.schema, ver.subresources, ver.additionalPrinterColumns)
      else acc)
    (none, none, [])

/-- `toTrivialVersions` (gen.go lines 290-311): clear the per-version
schema/subresources/columns of every version; if a storage version was
seen *and its schema is non-nil*, promote its original three fields to
the top level (`if canonicalSchema == nil { return }` guards the
promotion). -/
def toTrivialVersions (crd : CRDL) : CRDL :=
  let canon := canonOf crd.spec.versions
  let vers := crd.spec.versions.map clearVersion
  if canon.1 = none then
    { crd with spec := { crd.spec with versions := vers } }
  else
    { crd with
      spec := { crd.spec with
                versions := vers
                validation := canon.1
                subresources := canon.2.1
                additionalPrinterColumns := canon.2.2 } }

theorem canonOf_no_storage :
    ∀ (vs : List CRDVersionL)
      (init : Option Validation × Option Subresources × ColumnDefs),
      (∀ v ∈ vs, v.storage = false) →
      vs.foldl
        (fun acc ver =>
          if ver.storage then
            (ver.schema, ver.subresources, ver.additionalPrinterColumns)
          else acc) init = init := by
  intro vs
  induction vs with
  | nil => intro init _; rfl
  | cons v rest ih =>
    intro init h
    rw [List.foldl_cons, if_neg (by simp [h v (List.mem_cons_self _ _)])]
    exact ih init fun w hw => h w (List.mem_cons_of_mem _ hw)

/-- With exactly one storage version, the capture is that version's
original fields. -/
theorem canonOf_single_storage :
    ∀ (vs : List CRDVersionL) (sv : CRDVersionL),
      vs.filter (fun v => v.storage) = [sv] →
      canonOf vs = (sv.schema, sv.subresources, sv.additionalPrinterColumns) := by
  intro vs
  unfold canonOf
  induction vs with
  | nil => intro sv h; simp at h
  | cons v rest ih =>
    intro sv h
    by_cases hv : v.storage = true
    · rw [List.filter_cons_of_pos (by simp [hv])] at h
      rw [List.cons.injEq] at h
      obtain ⟨rfl, hrest⟩ := h
      have hno : ∀ w ∈ rest, w.storage = false := by
        intro w hw
        by_contra hc
        have : w ∈ rest.filter (fun v => v.storage) :=
          List.mem_filter.mpr ⟨hw, by simpa using hc⟩
        rw [hrest] at this
        simp at this
      rw [List.foldl_cons, if_pos hv]
      exact canonOf_no_storage rest _ hno
    · rw [List.filter_cons_of_neg (by simpa using hv)] at h
      rw [List.foldl_cons, if_neg hv]
      exact ih sv h

/-! ### Claim theorems for `toTrivialVersions` -/

/-- The storage version of the C4 counterexample: storage, nil schema,
non-nil subresources and columns. -/
def c4Ver : CRDVersionL :=
  { vname := str "v1beta1", served := true, storage := true,
    schema := none, subresources := some 5, additionalPrinterColumns := [7] }

/-- The C4 counterexample descriptor: a single version which is the
storage version. -/
def c4Crd : CRDL :=
  { spec := { versions := [c4Ver], validation := none, subresources := none,
              additionalPrinterColumns := [] } }

/-- **C4 (counterexample).**  The claim fails when the (unique)
storage version's schema is nil: `toTrivialVersions` returns before
promoting anything (`if canonicalSchema == nil { return }`), so the
top-level subresources field stays `none` instead of receiving the
storage version's `some 5`. -/
theorem trivial_versions_cex :
    c4Crd.spec.versions.filter (fun v => v.storage) = [c4Ver] ∧
    c4Ver.subresources = some 5 ∧
    (toTrivialVersions c4Crd).spec.subresources = none := by decide

/-- **C4 (amended).**  For a descriptor with exactly one version
marked as the storage version, *whose per-version schema is set*,
trivial-version collapse promotes that version's original schema,
subresources and printer columns to the descriptor's top level and
clears those three fields on every version (storage and non-storage
alike). -/
theorem trivial_versions_promote (crd : CRDL) (sv : CRDVersionL) (x : Validation)
    (hone : crd.spec.versions.filter (fun v => v.storage) = [sv])
    (hschema : sv.schema = some x) :
    (toTrivialVersions crd).spec.validation = sv.schema ∧
    (toTrivialVersions crd).spec.subresources = sv.subresources ∧
    (toTrivialVersions crd).spec.additionalPrinterColumns
        = sv.additionalPrinterColumns ∧
    (toTrivialVersions crd).spec.versions
        = crd.spec.versions.map clearVersion := by
  have hc := canonOf_single_storage crd.spec.versions sv hone
  unfold toTrivialVersions
  rw [hc, hschema]
  simp

/-- Witness for C4 (amended): two versions, `v1` non-storage with
schema 1, `v1beta1` storage with schema 2; schema 2 is promoted and
both versions are cleared. -/
theorem trivial_versions_promote_witness :
    ([⟨str "v1", true, false, some 1, some 3, [4]⟩,
      ⟨str "v1beta1", true, true, some 2, some 5, [6]⟩]
        : List CRDVersionL).filter (fun v => v.storage)
      = [⟨str "v1beta1", true, true, some 2, some 5, [6]⟩] ∧
    (toTrivialVersions
        { spec := { versions := [⟨str "v1", true, false, some 1, some 3, [4]⟩,
                                 ⟨str "v1beta1", true, true, some 2, some 5, [6]⟩],
                    validation := none, subresources := none,
                    additionalPrinterColumns := [] } }).spec.validation
      = some 2 := by
  refine ⟨by decide, ?_⟩
  have h := trivial_versions_promote
    { spec := { versions := [⟨str "v1", true, false, some 1, some 3, [4]⟩,
                             ⟨str "v1beta1", true, true, some 2, some 5, [6]⟩],
                validation := none, subresources := none,
                additionalPrinterColumns := [] } }
    ⟨str "v1beta1", true, true, some 2, some 5, [6]⟩ 2 (by decide) rfl
  exact h.1

/-- **C10.**  When no version is marked as the storage version,
`toTrivialVersions` still clears the schema, subresources and
printer-column fields of every version, while the descriptor's
top-level validation, subresources and printer-column fields are left
unchanged: the per-version data is lost without being promoted. -/
theorem trivial_versions_no_storage (crd : CRDL)
    (h : ∀ v ∈ crd.spec.versions, v.storage = false) :
    (toTrivialVersions crd).spec.versions
        = crd.spec.versions.map clearVersion ∧
    (toTrivialVersions crd).spec.validation = crd.spec.validation ∧
    (toTrivialVersions crd).spec.subresources = crd.spec.subresources ∧
    (toTrivialVersions crd).spec.additionalPrinterColumns
        = crd.spec.additionalPrinterColumns := by
  have hc : canonOf crd.spec.versions = (none, none, []) :=
    canonOf_no_storage crd.spec.versions (none, none, []) h
  unfold toTrivialVersions
  rw [hc]
  simp

/-- Witness for C10: one served, non-storage version with all three
per-version fields set; they are cleared and nothing is promoted. -/
theorem trivial_versions_no_storage_witness :
    (∀ v ∈ [(⟨str "v1", true, false, some 1, some 3, [4]⟩ : CRDVersionL)],
      v.storage = false) ∧
    (toTrivialVersions
        { spec := { versions := [⟨str "v1", true, false, some 1, some 3, [4]⟩],
                    validation := some 9, subresources := none,
                    additionalPrinterColumns := [] } }).spec.versions
      = [⟨str "v1", true, false, none, none, []⟩] ∧
    (toTrivialVersions
        { spec := { versions := [⟨str "v1", true, false, some 1, some 3, [4]⟩],
                    validation := some 9, subresources := none,
                    additionalPrinterColumns := [] } }).spec.validation
      = some 9 := by
  have h := trivial_versions_no_storage
    { spec := { versions := [⟨str "v1", true, false, some 1, some 3, [4]⟩],
                validation := some 9, subresources := none,
                additionalPrinterColumns := [] } }
    (by decide)
  exact ⟨by decide, by rw [h.1]; decide, h.2.1⟩

/-! ### `Generator.Generate`: error behaviour (C7)

The claim concerns which configurations make `Generate` fail and with
which class of error.  The run's environment — whether the header file
reads, whether the roots import metav1, which kube kinds were found,
and whether `crd.AsVersion` succeeds — is abstracted into `GenEnv`
(kinds are opaque ids listed in Go-map iteration order); the emitted
values play no role in the error flow and are omitted here. -/

/-- The configuration fields of `Generator` (gen.go lines 24-76) that
the error flow consults. -/
structure GenConfig where
  trivialVersions : Bool
  preserveUnknownFields : Option Bool
  crdVersions : List Str
  headerFile : Str
  packageName : Str
  deriving DecidableEq, Repr

/-- The errors `Generate` can return (gen.go lines 82-190). -/
inductive GenErr where
  | missingPackageName
  | headerReadFailed
  | conversionFailed
  | invalidPreserveUnknown
  deriving DecidableEq, Repr

/-- The spec's error taxonomy (§7): configuration errors are the
missing package name and the invalid preserve-unknown-fields request;
header-read and version-conversion failures are upstream data
errors. -/
def GenErr.isConfig : GenErr → Bool
  | .missingPackageName => true
  | .invalidPreserveUnknown => true
  | _ => false

/-- The run environment of one `Generate` call. -/
structure GenEnv where
  headerReadOk : Bool
  hasMetav1 : Bool
  kubeKinds : List Nat
  convOk : Nat → Str → Bool

/-- The `crdVersions` defaulting (gen.go lines 123-127): an empty
request becomes `["v1"]`. -/
def effectiveVersions (cfg : GenConfig) : List Str :=
  if cfg.crdVersions.isEmpty then [str "v1"] else cfg.crdVersions

/-- The `switch` on `PreserveUnknownFields` (gen.go lines 161-173),
with `v1beta1Only = len(crdVersions) == 1 && crdVersions[0] ==
"v1beta1"`.  The first case clears the field (a value effect, no
error); the default case errors. -/
def pufCheck (puf : Option Bool) (v1beta1Only : Bool) : Option GenErr :=
  if (puf = none ∨ puf = some true) ∧ v1beta1Only = true then none
  else if puf = none ∨ puf = some false then none
  else some .invalidPreserveUnknown

/-- The per-group-kind body of the generation loop (gen.go lines
139-178), error flow only: each requested version is converted with
`crd.AsVersion` (first failure aborts the run), then the
preserve-unknown-fields switch runs. -/
def processKind (cfg : GenConfig) (env : GenEnv) (vers : List Str) (k : Nat) :
    Option GenErr :=
  if vers.all (fun ver => env.convOk k ver) then
    pufCheck cfg.preserveUnknownFields (vers = [str "v1beta1"])
  else some .conversionFailed

/-- First error of the per-kind results, in iteration order. -/
def firstErr : List (Option GenErr) → Option GenErr
  | [] => none
  | some e :: _ => some e
  | none :: rest => firstErr rest

/-- The error behaviour of `Generator.Generate` (gen.go lines 82-190):
`none` means the run reaches output generation (or returns early with
no error when there is nothing to generate — no metav1 import, or no
kube kinds). -/
def generateErr (cfg : GenConfig) (env : GenEnv) : Option GenErr :=
  if cfg.packageName = [] then some .missingPackageName
  else if cfg.headerFile ≠ [] ∧ env.headerReadOk = false then some .headerReadFailed
  else if env.hasMetav1 = false then none
  else if env.kubeKinds.isEmpty then none
  else firstErr (env.kubeKinds.map (processKind cfg env (effectiveVersions cfg)))

theorem firstErr_const : ∀ (l : List Nat) (c : Option GenErr), l ≠ [] →
    firstErr (l.map (fun _ => c)) = c := by
  intro l
  induction l with
  | nil => intro c h; exact absurd rfl h
  | cons k rest ih =>
    intro c _
    cases c with
    | some e => rfl
    | none =>
      rw [List.map_cons, firstErr]
      by_cases hr : rest = []
      · rw [hr]; rfl
      · exact ih none hr

/-- The defaulted version list is `["v1beta1"]` exactly when the
requested list is. -/
theorem effectiveVersions_v1beta1 (cfg : GenConfig) :
    (effectiveVersions cfg = [str "v1beta1"]) ↔ (cfg.crdVersions = [str "v1beta1"]) := by
  unfold effectiveVersions
  by_cases h : cfg.crdVersions.isEmpty
  · rw [if_pos h]
    rw [List.isEmpty_iff] at h
    rw [h]
    constructor
    · intro he
      exact absurd he (by decide)
    · intro he
      exact absurd he (by simp)
  · rw [if_neg h]

/-- `pufCheck` errors exactly on an explicit `true` outside
v1beta1-only mode, and its error is the configuration error. -/
theorem pufCheck_spec (puf : Option Bool) (b : Bool) :
    (∃ e, pufCheck puf b = some e ∧ e.isConfig = true) ↔
      (puf = some true ∧ b = false) := by
  cases puf with
  | none => simp [pufCheck]
  | some pb =>
    cases pb <;> cases b <;> simp [pufCheck, GenErr.isConfig]

/-- **C7.**  In a run that has something to generate (metav1 found, at
least one kube kind) and whose environment is healthy (header readable
if requested, version conversions succeed), `Generate` fails with a
fatal configuration error if and only if the required package name is
empty, or the unknown-field-preservation flag is explicitly `true`
while the requested version set is not exactly `["v1beta1"]` (an empty
request defaults to `["v1"]`); in all other configurations no
configuration error is raised. -/
theorem generate_config_error_iff (cfg : GenConfig) (env : GenEnv)
    (hheader : cfg.headerFile = [] ∨ env.headerReadOk = true)
    (hmeta : env.hasMetav1 = true)
    (hkinds : env.kubeKinds ≠ [])
    (hconv : ∀ k ver, env.convOk k ver = true) :
    (∃ e, generateErr cfg env = some e ∧ e.isConfig = true) ↔
      (cfg.packageName = [] ∨
        (cfg.preserveUnknownFields = some true ∧
          cfg.crdVersions ≠ [str "v1beta1"])) := by
  unfold generateErr
  by_cases hpkg : cfg.packageName = []
  · rw [if_pos hpkg]
    constructor
    · intro _; exact Or.inl hpkg
    · intro _; exact ⟨.missingPackageName, rfl, rfl⟩
  · rw [if_neg hpkg]
    have hh : ¬(cfg.headerFile ≠ [] ∧ env.headerReadOk = false) := by
      rcases hheader with h | h
      · intro hc; exact hc.1 h
      · intro hc; rw [h] at hc; exact Bool.noConfusion hc.2
    rw [if_neg hh, hmeta]
    rw [if_neg (by simp)]
    rw [if_neg (by simpa [List.isEmpty_iff] using hkinds)]
    have hpk : ∀ k : Nat, processKind cfg env (effectiveVersions cfg) k
        = pufCheck cfg.preserveUnknownFields
            (effectiveVersions cfg = [str "v1beta1"]) := by
      intro k
      unfold processKind
      rw [if_pos (by simp [hconv])]
    have hmap : env.kubeKinds.map (processKind cfg env (effectiveVersions cfg))
        = env.kubeKinds.map (fun _ => pufCheck cfg.preserveUnknownFields
            (effectiveVersions cfg = [str "v1beta1"])) := by
      exact List.map_congr_left fun k _ => hpk k
    rw [hmap, firstErr_const _ _ hkinds]
    rw [pufCheck_spec]
    constructor
    · intro ⟨h1, h2⟩
      refine Or.inr ⟨h1, ?_⟩
      intro hv
      rw [decide_eq_false_iff_not] at h2
      exact h2 ((effectiveVersions_v1beta1 cfg).mpr hv)
    · intro h
      rcases h with h | ⟨h1, h2⟩
      · exact absurd h hpkg
      · refine ⟨h1, ?_⟩
        rw [decide_eq_false_iff_not]
        intro hv
        exact h2 ((effectiveVersions_v1beta1 cfg).mp hv)

/-- Witness for C7: requesting `PreserveUnknownFields = true` together
with versions `["v1"]` is rejected with the configuration error, in a
healthy run with one kind. -/
theorem generate_config_error_iff_witness :
    ((str "" = ([] : Str) ∨ true = true) ∧ true = true ∧
      ([0] : List Nat) ≠ [] ∧ ∀ (k : Nat) (ver : Str), true = true) ∧
    (∃ e, generateErr
        { trivialVersions := false, preserveUnknownFields := some true,
          crdVersions := [str "v1"], headerFile := str "",
          packageName := str "generated" }
        { headerReadOk := true, hasMetav1 := true, kubeKinds := [0],
          convOk := fun _ _ => true } = some e ∧ e.isConfig = true) := by
  refine ⟨⟨Or.inl rfl, rfl, by decide, fun _ _ => rfl⟩, ?_⟩
  rw [generate_config_error_iff _ _ (Or.inl rfl) rfl (by decide) (fun _ _ => rfl)]
  refine Or.inr ⟨rfl, by decide⟩

/-! ### `codeWriter.GenerateCrds` and re-run determinism (C5)

`GenerateCrds` iterates `for version, list := range crds` over a Go
map; Go's map iteration order is randomised per run, so the
enumeration order is an explicit input here (`crdsInOrder`, some
permutation of the map's entries).  Two runs on the identical map may
enumerate it differently.  The same nondeterminism enters upstream
(`for groupKind := range kubeKinds` fixes the order of the values
within each version's list, and `for pkg := range
cw.parser.GroupVersions` the order of the scheme file's registration
calls); the version map alone already decides the claim.  The Import
Registry plays no role in the emitted text: `imports.Qual` only
records the path and returns `jen.Qual(pkg, name)`, whose rendering
never consults the registry's aliases, which is why `generateValue`
(and hence this function) needs no registry argument. -/

/-- Top-level declarations of the generated `zz.generated.crds.go`,
in emission order: `func New<CapitalizedVersion>CRDs() []*<ver>.CustomResourceDefinition`
returning the serialized values (gen.go lines 264-276). -/
inductive TopDecl where
  | funcDecl (dname : Str) (retTy : JExpr) (values : List (Option JExpr))

/-- The name of a generated declaration. -/
def TopDecl.declName : TopDecl → Str
  | .funcDecl n _ _ => n

/-- `jen.Index().Op("*").Qual("k8s.io/apiextensions-apiserver/pkg/apis/apiextensions/"+version, "CustomResourceDefinition")`. -/
def crdSliceTy (version : Str) : JExpr :=
  .sliceType (.star (.qual
    (str "k8s.io/apiextensions-apiserver/pkg/apis/apiextensions/" ++ version)
    (str "CustomResourceDefinition")))

/-- `codeWriter.GenerateCrds` (gen.go lines 260-285), emitted
declarations: one function per `crds` entry in the given enumeration
order, returning `GenerateValue` of each of that version's CRD values
in list order. -/
def generateCrdsFile (crdsInOrder : List (Str × List GoValue)) : List TopDecl :=
  crdsInOrder.map fun p =>
    .funcDecl (str "New" ++ capitalize p.1 ++ str "CRDs") (crdSliceTy p.1)
      (p.2.map GenerateValue)

/-- The two enumeration orders of the C5 counterexample: one map with
a `v1` entry and a `v1beta1` entry, enumerated in both orders. -/
def c5Val : GoValue := .scalar .int none (.vint 1)

def c5Ord1 : List (Str × List GoValue) :=
  [(str "v1", [c5Val]), (str "v1beta1", [c5Val])]

def c5Ord2 : List (Str × List GoValue) :=
  [(str "v1beta1", [c5Val]), (str "v1", [c5Val])]

/-- **C5 (counterexample).**  Two runs on the identical `crds` map can
emit different bytes: the map's two enumeration orders (both are
permutations of the same entries, which is all Go guarantees about
`range` over a map) produce the two generated functions in different
file order, so the outputs differ as declaration sequences — and the
rendered text differs in the same way, since `jen.File` renders
declarations in insertion order. -/
theorem generate_crds_order_cex :
    c5Ord1.Perm c5Ord2 ∧
    (generateCrdsFile c5Ord1).map TopDecl.declName
        = [str "NewV1CRDs", str "NewV1beta1CRDs"] ∧
    (generateCrdsFile c5Ord2).map TopDecl.declName
        = [str "NewV1beta1CRDs", str "NewV1CRDs"] ∧
    (generateCrdsFile c5Ord1).map TopDecl.declName
        ≠ (generateCrdsFile c5Ord2).map TopDecl.declName := by
  refine ⟨List.Perm.swap _ _ _, rfl, rfl, by decide⟩

/-- **C5 (amended).**  The pipeline is deterministic up to Go's map
iteration order: for any two enumeration orders of the identical
`crds` map (any two permutations of the same entries), the two runs
emit permutations of the same declarations — in particular equal
enumeration orders give byte-identical output — and the emitted
declarations do not depend on any registry state, only on the input
values. -/
theorem generate_crds_deterministic (ord1 ord2 : List (Str × List GoValue))
    (hperm : ord1.Perm ord2) :
    (generateCrdsFile ord1).Perm (generateCrdsFile ord2) := by
  exact hperm.map _

/-- Witness for C5 (amended): the counterexample's two enumeration
orders yield permuted outputs. -/
theorem generate_crds_deterministic_witness :
    c5Ord1.Perm c5Ord2 ∧
    (generateCrdsFile c5Ord1).Perm (generateCrdsFile c5Ord2) :=
  ⟨List.Perm.swap _ _ _,
   generate_crds_deterministic c5Ord1 c5Ord2 (List.Perm.swap _ _ _)⟩

end Crdgo
